import Mathlib

/-!
Verification of the backtracking timetable CSP solver (`timetable_csp.py`).

The Python class `TimetableCSP` is embedded as a structure of static catalogs
(`days`, `time_slots`, `subjects`, `teachers`, `classrooms`, the
teacher-capability map `teacher_subjects`, and the quota map `subject_periods`),
with the mutable `self.assignment` dict made an explicit parameter of every
method.  A Python dict whose insertion order is irrelevant to the observed
semantics is modelled as an association list with unique keys; dict assignment
(`d[k] = v`) is `dict_set` (replace-or-append), `del d[k]` is `dict_del`
(`none` models the KeyError on a missing key), and `k in d` is `has_key`.

`random.shuffle` is modelled by an arbitrary stateful reordering
`next_shuffle : G → List Activity → List Activity × G`; theorems quantify over
it (usually assuming it only returns elements of its input, which any
permutation does).  The unbounded Python recursion `backtrack` is embedded
with explicit fuel; `solve` supplies fuel `|all slots| + 1`, which the
termination theorem shows always suffices, so `none` (fuel exhausted or a
KeyError from `del`) never escapes `solve`.
-/

abbrev Slot := String × String

abbrev Activity := String × String × String

abbrev Assignment := List (Slot × Activity)

/-- The static data set up in `TimetableCSP.__init__` (lines 5-29).  The
assignment dict (line 32) is passed explicitly to each method below. -/
structure TimetableCSP where
  days : List String
  time_slots : List String
  subjects : List String
  teachers : List String
  classrooms : List String
  teacher_subjects : String → List String
  subject_periods : List (String × Nat)

/-- Python `k in d` for the assignment dict. -/
def has_key (a : Assignment) (k : Slot) : Bool :=
  a.any (fun p => decide (p.1 = k))

/-- Python `d[k] = v`: silently replaces the value if the key is present
(preserving its position), otherwise appends the new pair. -/
def dict_set (a : Assignment) (k : Slot) (v : Activity) : Assignment :=
  if has_key a k then a.map (fun p => if p.1 = k then (k, v) else p)
  else a ++ [(k, v)]

/-- Python `del d[k]`: removes the key if present; `none` models the
KeyError raised when the key is absent. -/
def dict_del (a : Assignment) (k : Slot) : Option Assignment :=
  if has_key a k then some (a.filter (fun p => !(decide (p.1 = k)))) else none

/-- Python `d[k]` as a read: the value at the key, if any. -/
def dict_get (a : Assignment) (k : Slot) : Option Activity :=
  (a.find? (fun p => decide (p.1 = k))).map Prod.snd

/-- `TimetableCSP.get_subject_count` (lines 53-59): how many bound slots
carry the given subject. -/
def get_subject_count (a : Assignment) (subject : String) : Nat :=
  a.countP (fun p => decide (p.2.1 = subject))

/-- `TimetableCSP.is_complete` (lines 61-66): returns `false` as soon as some
subject's count is below its required periods, else `true`. -/
def is_complete (csp : TimetableCSP) (a : Assignment) : Bool :=
  csp.subject_periods.all (fun q => !(decide (get_subject_count a q.1 < q.2)))

/-- The slot enumeration `[(day, time) for day in self.days for time in self.time_slots]`
(line 70), day-major. -/
def all_slots (csp : TimetableCSP) : List Slot :=
  csp.days.flatMap (fun day => csp.time_slots.map (fun time => (day, time)))

/-- `TimetableCSP.get_unassigned_variables` (lines 68-72). -/
def get_unassigned_variables (csp : TimetableCSP) (a : Assignment) : List Slot :=
  (all_slots csp).filter (fun slot => !(decide (slot ∈ a.map Prod.fst)))

/-- `TimetableCSP.is_valid_assignment` (lines 34-51): teacher capability,
then teacher clash at the same (day, time), then room clash at the same
(day, time). -/
def is_valid_assignment (csp : TimetableCSP) (a : Assignment)
    (day time_slot subject teacher classroom : String) : Bool :=
  if !(decide (subject ∈ csp.teacher_subjects teacher)) then false
  else if a.any (fun p =>
      decide (p.1.1 = day) && decide (p.1.2 = time_slot) && decide (p.2.2.1 = teacher)) then
    false
  else if a.any (fun p =>
      decide (p.1.1 = day) && decide (p.1.2 = time_slot) && decide (p.2.2.2 = classroom)) then
    false
  else true

/-- `TimetableCSP.get_domain_values` (lines 74-91): subjects still under
quota, teachers capable of them, classrooms passing `is_valid_assignment`. -/
def get_domain_values (csp : TimetableCSP) (a : Assignment)
    (day time_slot : String) : List Activity :=
  let needed_subjects :=
    (csp.subject_periods.filter (fun q => decide (get_subject_count a q.1 < q.2))).map Prod.fst
  needed_subjects.flatMap (fun subject =>
    csp.teachers.flatMap (fun teacher =>
      if subject ∈ csp.teacher_subjects teacher then
        csp.classrooms.flatMap (fun classroom =>
          if is_valid_assignment csp a day time_slot subject teacher classroom then
            [(subject, teacher, classroom)]
          else [])
      else []))

/-- The candidate loop of `TimetableCSP.backtrack` (lines 109-120), with the
recursive call abstracted as `bt`: bind the slot, recurse, propagate success,
otherwise `del` the slot's binding and try the next candidate. -/
def try_values {G : Type} (bt : Assignment → G → Option (Bool × Assignment × G))
    (slot : Slot) : List Activity → Assignment → G → Option (Bool × Assignment × G)
  | [], a, g => some (false, a, g)
  | v :: rest, a, g =>
    match bt (dict_set a slot v) g with
    | none => none
    | some (true, a', g') => some (true, a', g')
    | some (false, a', g') =>
      match dict_del a' slot with
      | none => none
      | some a'' => try_values bt slot rest a'' g'

/-- `TimetableCSP.backtrack` (lines 93-120) with explicit fuel and an explicit
shuffle `next_shuffle` standing for `random.shuffle` (line 107). -/
def backtrack {G : Type} (csp : TimetableCSP)
    (next_shuffle : G → List Activity → List Activity × G) :
    Nat → Assignment → G → Option (Bool × Assignment × G)
  | 0, _, _ => none
  | fuel + 1, a, g =>
    if is_complete csp a then some (true, a, g)
    else
      match get_unassigned_variables csp a with
      | [] => some (is_complete csp a, a, g)
      | slot :: _ =>
        let p := next_shuffle g (get_domain_values csp a slot.1 slot.2)
        try_values (backtrack csp next_shuffle fuel) slot p.1 a p.2

/-- `TimetableCSP.solve` (lines 122-125): reset the assignment to empty and
run `backtrack`.  The fuel `|all slots| + 1` is shown sufficient below. -/
def solve {G : Type} (csp : TimetableCSP)
    (next_shuffle : G → List Activity → List Activity × G) (g : G) :
    Option (Bool × Assignment × G) :=
  backtrack csp next_shuffle ((all_slots csp).length + 1) [] g

/-- The concrete catalogs hard-wired in `TimetableCSP.__init__`. -/
def defaultCSP : TimetableCSP where
  days := ["Monday", "Tuesday", "Wednesday", "Thursday", "Friday"]
  time_slots := ["9:00-10:00", "10:00-11:00", "11:00-12:00", "14:00-15:00", "15:00-16:00"]
  subjects := ["Math", "Physics", "Chemistry", "English", "History"]
  teachers := ["Teacher_A", "Teacher_B", "Teacher_C", "Teacher_D", "Teacher_E"]
  classrooms := ["Room_101", "Room_102", "Room_103", "Room_104", "Room_105"]
  teacher_subjects := fun t =>
    if t = "Teacher_A" then ["Math", "Physics"]
    else if t = "Teacher_B" then ["Chemistry", "Physics"]
    else if t = "Teacher_C" then ["English", "History"]
    else if t = "Teacher_D" then ["Math", "History"]
    else if t = "Teacher_E" then ["Chemistry", "English"]
    else []
  subject_periods :=
    [("Math", 3), ("Physics", 2), ("Chemistry", 2), ("English", 2), ("History", 1)]

/-- The reference catalog with History's quota raised to 30 (spec scenario B). -/
def historyThirtyCSP : TimetableCSP :=
  { defaultCSP with
    subject_periods :=
      [("Math", 3), ("Physics", 2), ("Chemistry", 2), ("English", 2), ("History", 30)] }

/-- A one-slot, one-subject instance used to exercise a successful solve. -/
def tinyCSP : TimetableCSP where
  days := ["D"]
  time_slots := ["P"]
  subjects := ["S"]
  teachers := ["T"]
  classrooms := ["R"]
  teacher_subjects := fun t => if t = "T" then ["S"] else []
  subject_periods := [("S", 1)]

/-- A one-slot instance whose only subject no teacher can teach. -/
def noTeacherCSP : TimetableCSP where
  days := ["D"]
  time_slots := ["P"]
  subjects := ["S"]
  teachers := ["T"]
  classrooms := ["R"]
  teacher_subjects := fun _ => []
  subject_periods := [("S", 1)]

/-- An assignment whose Math count (4) strictly exceeds Math's quota (3)
while every other subject exactly meets its quota. -/
def overfullAssignment : Assignment :=
  [(("Monday", "9:00-10:00"), ("Math", "Teacher_A", "Room_101")),
   (("Monday", "10:00-11:00"), ("Math", "Teacher_A", "Room_101")),
   (("Monday", "11:00-12:00"), ("Math", "Teacher_A", "Room_101")),
   (("Monday", "14:00-15:00"), ("Math", "Teacher_A", "Room_101")),
   (("Monday", "15:00-16:00"), ("Physics", "Teacher_A", "Room_101")),
   (("Tuesday", "9:00-10:00"), ("Physics", "Teacher_A", "Room_101")),
   (("Tuesday", "10:00-11:00"), ("Chemistry", "Teacher_B", "Room_101")),
   (("Tuesday", "11:00-12:00"), ("Chemistry", "Teacher_B", "Room_101")),
   (("Tuesday", "14:00-15:00"), ("English", "Teacher_C", "Room_101")),
   (("Tuesday", "15:00-16:00"), ("English", "Teacher_C", "Room_101")),
   (("Wednesday", "9:00-10:00"), ("History", "Teacher_C", "Room_101"))]

/-- A shuffle that keeps the candidate order unchanged (one admissible
ordering policy). -/
def idShuffle : Unit → List Activity → List Activity × Unit :=
  fun g l => (l, g)

/-- The assignment states the search can pass through: the empty assignment,
and any state obtained from a reachable state by binding the first unassigned
slot to one of its current domain values (lines 103, 106, 111).  Unbinding
(line 118) returns to an earlier reachable state, as the frame theorems show. -/
inductive Reachable (csp : TimetableCSP) : Assignment → Prop where
  | empty : Reachable csp []
  | step : ∀ a slot rest v, Reachable csp a →
      get_unassigned_variables csp a = slot :: rest →
      v ∈ get_domain_values csp a slot.1 slot.2 →
      Reachable csp (dict_set a slot v)

theorem key_unbound_iff (a : Assignment) (k : Slot) :
    has_key a k = false ↔ ∀ p ∈ a, p.1 ≠ k := by
  rw [has_key, List.any_eq_false]
  simp only [decide_eq_true_eq]

theorem not_mem_keys_iff (a : Assignment) (k : Slot) :
    k ∉ a.map Prod.fst ↔ ∀ p ∈ a, p.1 ≠ k := by
  constructor
  · intro h p hp he
    exact h (List.mem_map.mpr ⟨p, hp, he⟩)
  · intro h hm
    obtain ⟨p, hp, he⟩ := List.mem_map.mp hm
    exact h p hp he

theorem has_key_eq_false_iff (a : Assignment) (k : Slot) :
    has_key a k = false ↔ k ∉ a.map Prod.fst := by
  rw [key_unbound_iff, not_mem_keys_iff]

theorem mem_unassigned_iff (csp : TimetableCSP) (a : Assignment) (slot : Slot) :
    slot ∈ get_unassigned_variables csp a ↔
      slot ∈ all_slots csp ∧ slot ∉ a.map Prod.fst := by
  simp [get_unassigned_variables, List.mem_filter]

theorem has_key_of_unassigned {csp : TimetableCSP} {a : Assignment} {slot : Slot}
    (h : slot ∈ get_unassigned_variables csp a) : has_key a slot = false :=
  (has_key_eq_false_iff a slot).mpr ((mem_unassigned_iff csp a slot).mp h).2

theorem dict_set_unbound {a : Assignment} {k : Slot} (h : has_key a k = false)
    (v : Activity) : dict_set a k v = a ++ [(k, v)] := by
  simp [dict_set, h]

theorem dict_del_dict_set {a : Assignment} {k : Slot} (h : has_key a k = false)
    (v : Activity) : dict_del (dict_set a k v) k = some a := by
  have hk : ∀ p ∈ a, p.1 ≠ k := (key_unbound_iff a k).mp h
  rw [dict_set_unbound h]
  have hhk : has_key (a ++ [(k, v)]) k = true := by
    simp [has_key, List.any_append]
  rw [dict_del, hhk]
  simp only [if_pos rfl, List.filter_append]
  have h1 : a.filter (fun p => !(decide (p.1 = k))) = a := by
    apply List.filter_eq_self.mpr
    intro p hp
    simp only [Bool.not_eq_true', decide_eq_false_iff_not]
    exact hk p hp
  simp [h1]

theorem unassigned_dict_set {a : Assignment} {slot : Slot} (h : has_key a slot = false)
    (csp : TimetableCSP) (v : Activity) :
    get_unassigned_variables csp (dict_set a slot v) =
      (get_unassigned_variables csp a).filter (fun s => !(decide (s = slot))) := by
  rw [dict_set_unbound h]
  unfold get_unassigned_variables
  rw [List.filter_filter]
  apply List.filter_congr
  intro s _
  show (!(decide (s ∈ (a ++ [(slot, v)]).map Prod.fst))) =
    (!(decide (s = slot)) && !(decide (s ∈ a.map Prod.fst)))
  have : (s ∈ (a ++ [(slot, v)]).map Prod.fst) ↔ (s ∈ a.map Prod.fst ∨ s = slot) := by
    simp [List.map_append]
  simp only [this]
  by_cases h1 : s ∈ List.map Prod.fst a <;> by_cases h2 : s = slot <;> simp [h1, h2]

theorem unassigned_length_lt {csp : TimetableCSP} {a : Assignment} {slot : Slot}
    (h : slot ∈ get_unassigned_variables csp a) (v : Activity) :
    (get_unassigned_variables csp (dict_set a slot v)).length <
      (get_unassigned_variables csp a).length := by
  rw [unassigned_dict_set (has_key_of_unassigned h)]
  exact List.length_filter_lt_length_iff_exists.mpr ⟨slot, h, by simp⟩

theorem try_values_frame {G : Type} {bt : Assignment → G → Option (Bool × Assignment × G)}
    {slot : Slot}
    (hbt : ∀ a g b a' g', bt a g = some (b, a', g') → b = false → a' = a) :
    ∀ vals a g a' g', has_key a slot = false →
      try_values bt slot vals a g = some (false, a', g') → a' = a := by
  intro vals
  induction vals with
  | nil =>
    intro a g a' g' _ h
    simp only [try_values, Option.some.injEq, Prod.mk.injEq] at h
    exact h.2.1.symm
  | cons v rest ih =>
    intro a g a' g' hk h
    rw [try_values] at h
    split at h
    · exact absurd h (by simp)
    · simp at h
    · rename_i a1 g1 hbt1
      have ha1 : a1 = dict_set a slot v := hbt (dict_set a slot v) g false a1 g1 hbt1 rfl
      subst ha1
      split at h
      · exact absurd h (by simp)
      · rename_i a2 hdel
        rw [dict_del_dict_set hk] at hdel
        obtain rfl : a2 = a := by injection hdel.symm
        exact ih _ _ _ _ hk h

theorem backtrack_frame {G : Type} (csp : TimetableCSP)
    (next_shuffle : G → List Activity → List Activity × G) :
    ∀ fuel a g b a' g', backtrack csp next_shuffle fuel a g = some (b, a', g') →
      b = false → a' = a := by
  intro fuel
  induction fuel with
  | zero => intro a g b a' g' h; simp [backtrack] at h
  | succ fuel ih =>
    intro a g b a' g' h hb
    subst hb
    rw [backtrack] at h
    by_cases hc : is_complete csp a
    · rw [if_pos hc] at h; simp at h
    · rw [if_neg hc] at h
      cases hu : get_unassigned_variables csp a with
      | nil =>
        rw [hu] at h
        simp only [Option.some.injEq, Prod.mk.injEq] at h
        exact h.2.1.symm
      | cons slot rest =>
        rw [hu] at h
        have hk : has_key a slot = false :=
          has_key_of_unassigned (by rw [hu]; exact List.mem_cons_self slot rest)
        exact try_values_frame ih _ a _ a' g' hk h

theorem try_values_cons_true {G : Type} {bt : Assignment → G → Option (Bool × Assignment × G)}
    {slot : Slot} {v : Activity} {rest : List Activity} {a : Assignment} {g : G}
    {a1 : Assignment} {g1 : G} (h : bt (dict_set a slot v) g = some (true, a1, g1)) :
    try_values bt slot (v :: rest) a g = some (true, a1, g1) := by
  simp only [try_values, h]

theorem try_values_cons_false {G : Type} {bt : Assignment → G → Option (Bool × Assignment × G)}
    {slot : Slot} {v : Activity} {rest : List Activity} {a a1 a2 : Assignment} {g g1 : G}
    (h : bt (dict_set a slot v) g = some (false, a1, g1))
    (h2 : dict_del a1 slot = some a2) :
    try_values bt slot (v :: rest) a g = try_values bt slot rest a2 g1 := by
  simp only [try_values, h, h2]

theorem try_values_total {G : Type} {csp : TimetableCSP}
    {bt : Assignment → G → Option (Bool × Assignment × G)} {slot : Slot} :
    ∀ vals (a : Assignment) (g : G), slot ∈ get_unassigned_variables csp a →
      (∀ a2 (g2 : G), (get_unassigned_variables csp a2).length <
          (get_unassigned_variables csp a).length → ∃ r, bt a2 g2 = some r) →
      (∀ a2 g2 b a' g', bt a2 g2 = some (b, a', g') → b = false → a' = a2) →
      ∃ r, try_values bt slot vals a g = some r := by
  intro vals
  induction vals with
  | nil => intro a g _ _ _; exact ⟨_, rfl⟩
  | cons v rest ih =>
    intro a g hmem htot hframe
    obtain ⟨r, hr⟩ := htot (dict_set a slot v) g (unassigned_length_lt hmem v)
    obtain ⟨b, a1, g1⟩ := r
    cases b with
    | true => exact ⟨_, try_values_cons_true hr⟩
    | false =>
      have ha1 : a1 = dict_set a slot v := hframe _ _ _ _ _ hr rfl
      subst ha1
      rw [try_values_cons_false hr (dict_del_dict_set (has_key_of_unassigned hmem) v)]
      exact ih a g1 hmem htot hframe

theorem backtrack_total {G : Type} (csp : TimetableCSP)
    (next_shuffle : G → List Activity → List Activity × G) :
    ∀ fuel (a : Assignment) (g : G), (get_unassigned_variables csp a).length < fuel →
      ∃ r, backtrack csp next_shuffle fuel a g = some r := by
  intro fuel
  induction fuel with
  | zero => intro a g h; exact absurd h (Nat.not_lt_zero _)
  | succ fuel ih =>
    intro a g hfuel
    rw [backtrack]
    by_cases hc : is_complete csp a
    · rw [if_pos hc]; exact ⟨_, rfl⟩
    · rw [if_neg hc]
      cases hu : get_unassigned_variables csp a with
      | nil => exact ⟨_, rfl⟩
      | cons slot rest =>
        have hmem : slot ∈ get_unassigned_variables csp a := by
          rw [hu]; exact List.mem_cons_self slot rest
        apply try_values_total _ a _ hmem
        · intro a2 g2 hlt
          apply ih
          calc (get_unassigned_variables csp a2).length
              < (get_unassigned_variables csp a).length := hlt
            _ = rest.length + 1 := by rw [hu]; rfl
            _ ≤ fuel := by
                have : rest.length + 1 ≤ fuel := by
                  have := hfuel
                  rw [hu] at this
                  simpa using Nat.lt_succ_iff.mp this
                exact this
        · exact fun a2 g2 b a' g' h hb => backtrack_frame csp next_shuffle fuel a2 g2 b a' g' h hb

theorem try_values_complete {G : Type} {csp : TimetableCSP}
    {bt : Assignment → G → Option (Bool × Assignment × G)} {slot : Slot}
    (hbt : ∀ a g a' g', bt a g = some (true, a', g') → is_complete csp a' = true) :
    ∀ vals (a : Assignment) (g : G) a' g',
      try_values bt slot vals a g = some (true, a', g') → is_complete csp a' = true := by
  intro vals
  induction vals with
  | nil => intro a g a' g' h; simp [try_values] at h
  | cons v rest ih =>
    intro a g a' g' h
    rw [try_values] at h
    split at h
    · exact absurd h (by simp)
    · rename_i a1 g1 hbt1
      obtain ⟨rfl, rfl⟩ : a1 = a' ∧ g1 = g' := by simpa using h
      exact hbt _ _ _ _ hbt1
    · split at h
      · exact absurd h (by simp)
      · exact ih _ _ _ _ h

theorem backtrack_complete {G : Type} (csp : TimetableCSP)
    (next_shuffle : G → List Activity → List Activity × G) :
    ∀ fuel (a : Assignment) (g : G) a' g',
      backtrack csp next_shuffle fuel a g = some (true, a', g') →
      is_complete csp a' = true := by
  intro fuel
  induction fuel with
  | zero => intro a g a' g' h; simp [backtrack] at h
  | succ fuel ih =>
    intro a g a' g' h
    rw [backtrack] at h
    by_cases hc : is_complete csp a
    · rw [if_pos hc] at h
      obtain ⟨rfl, rfl⟩ : a = a' ∧ g = g' := by simpa using h
      exact hc
    · rw [if_neg hc] at h
      cases hu : get_unassigned_variables csp a with
      | nil =>
        rw [hu] at h
        simp only [Option.some.injEq, Prod.mk.injEq] at h
        obtain ⟨hb, rfl, rfl⟩ := h
        exact hb
      | cons slot rest =>
        rw [hu] at h
        exact try_values_complete (fun a2 g2 a2' g2' h2 => ih a2 g2 a2' g2' h2) _ a _ a' g' h

theorem try_values_reachable {G : Type} {csp : TimetableCSP}
    {bt : Assignment → G → Option (Bool × Assignment × G)} {slot : Slot} {rest0 : List Slot}
    (hbt : ∀ a2 (g2 : G) a' g', Reachable csp a2 → bt a2 g2 = some (true, a', g') →
      Reachable csp a')
    (hframe : ∀ a2 g2 b a' g', bt a2 g2 = some (b, a', g') → b = false → a' = a2) :
    ∀ vals (a : Assignment) (g : G) a' g', Reachable csp a →
      get_unassigned_variables csp a = slot :: rest0 →
      (∀ v ∈ vals, v ∈ get_domain_values csp a slot.1 slot.2) →
      try_values bt slot vals a g = some (true, a', g') → Reachable csp a' := by
  intro vals
  induction vals with
  | nil => intro a g a' g' _ _ _ h; simp [try_values] at h
  | cons v rest ih =>
    intro a g a' g' hreach hu hvals h
    have hmem : slot ∈ get_unassigned_variables csp a := by
      rw [hu]; exact List.mem_cons_self slot rest0
    have hstep : Reachable csp (dict_set a slot v) :=
      Reachable.step a slot rest0 v hreach hu (hvals v (List.mem_cons_self v rest))
    rw [try_values] at h
    split at h
    · exact absurd h (by simp)
    · rename_i a1 g1 hbt1
      obtain ⟨rfl, rfl⟩ : a1 = a' ∧ g1 = g' := by simpa using h
      exact hbt _ _ _ _ hstep hbt1
    · rename_i a1 g1 hbt1
      have ha1 : a1 = dict_set a slot v := hframe _ _ _ _ _ hbt1 rfl
      subst ha1
      split at h
      · exact absurd h (by simp)
      · rename_i a2 hdel
        rw [dict_del_dict_set (has_key_of_unassigned hmem)] at hdel
        obtain rfl : a2 = a := by injection hdel.symm
        exact ih _ _ _ _ hreach hu (fun w hw => hvals w (List.mem_cons_of_mem v hw)) h

theorem backtrack_reachable {G : Type} (csp : TimetableCSP)
    (next_shuffle : G → List Activity → List Activity × G)
    (hsub : ∀ (g : G) l, ∀ v ∈ (next_shuffle g l).1, v ∈ l) :
    ∀ fuel (a : Assignment) (g : G) a' g', Reachable csp a →
      backtrack csp next_shuffle fuel a g = some (true, a', g') → Reachable csp a' := by
  intro fuel
  induction fuel with
  | zero => intro a g a' g' _ h; simp [backtrack] at h
  | succ fuel ih =>
    intro a g a' g' hreach h
    rw [backtrack] at h
    by_cases hc : is_complete csp a
    · rw [if_pos hc] at h
      obtain ⟨rfl, rfl⟩ : a = a' ∧ g = g' := by simpa using h
      exact hreach
    · rw [if_neg hc] at h
      cases hu : get_unassigned_variables csp a with
      | nil =>
        rw [hu] at h
        simp only [Option.some.injEq, Prod.mk.injEq] at h
        obtain ⟨_, rfl, rfl⟩ := h
        exact hreach
      | cons slot rest =>
        rw [hu] at h
        exact try_values_reachable
          (fun a2 g2 a2' g2' hr h2 => ih a2 g2 a2' g2' hr h2)
          (fun a2 g2 b a2' g2' h2 hb => backtrack_frame csp next_shuffle fuel a2 g2 b a2' g2' h2 hb)
          _ a _ a' g' hreach hu
          (fun v hv => hsub g (get_domain_values csp a slot.1 slot.2) v hv) h

theorem mem_get_domain_values_iff (csp : TimetableCSP) (a : Assignment)
    (day time_slot s t c : String) :
    (s, t, c) ∈ get_domain_values csp a day time_slot ↔
      (∃ req, (s, req) ∈ csp.subject_periods ∧ get_subject_count a s < req) ∧
      t ∈ csp.teachers ∧ s ∈ csp.teacher_subjects t ∧ c ∈ csp.classrooms ∧
      is_valid_assignment csp a day time_slot s t c = true := by
  unfold get_domain_values
  constructor
  · intro h
    simp only [List.mem_flatMap] at h
    obtain ⟨subject, hsub, teacher, hteach, hmem⟩ := h
    by_cases hcap : subject ∈ csp.teacher_subjects teacher
    · rw [if_pos hcap] at hmem
      simp only [List.mem_flatMap] at hmem
      obtain ⟨classroom, hcl, hmem2⟩ := hmem
      by_cases hval : is_valid_assignment csp a day time_slot subject teacher classroom = true
      · rw [if_pos hval] at hmem2
        simp only [List.mem_singleton, Prod.mk.injEq] at hmem2
        obtain ⟨rfl, rfl, rfl⟩ := hmem2
        refine ⟨?_, hteach, hcap, hcl, hval⟩
        simp only [List.mem_map, List.mem_filter, decide_eq_true_eq] at hsub
        obtain ⟨⟨s', req⟩, ⟨hq, hlt⟩, rfl⟩ := hsub
        exact ⟨req, hq, hlt⟩
      · rw [if_neg hval] at hmem2
        simp at hmem2
    · rw [if_neg hcap] at hmem
      simp at hmem
  · rintro ⟨⟨req, hreq, hlt⟩, ht, hcap, hc, hval⟩
    simp only [List.mem_flatMap]
    refine ⟨s, ?_, t, ht, ?_⟩
    · simp only [List.mem_map, List.mem_filter, decide_eq_true_eq]
      exact ⟨(s, req), ⟨hreq, hlt⟩, rfl⟩
    · rw [if_pos hcap]
      simp only [List.mem_flatMap]
      refine ⟨c, hc, ?_⟩
      rw [if_pos hval]
      exact List.mem_singleton_self _

theorem nodup_keys_unique {α β : Type} {l : List (α × β)} (h : (l.map Prod.fst).Nodup)
    {k : α} {x y : β} (hx : (k, x) ∈ l) (hy : (k, y) ∈ l) : x = y := by
  induction l with
  | nil => simp at hx
  | cons p rest ih =>
    rw [List.map_cons, List.nodup_cons] at h
    rcases List.mem_cons.mp hx with he | hx'
    · rcases List.mem_cons.mp hy with he2 | hy'
      · rw [← he] at he2
        injection he2 with _ h2
        exact h2.symm
      · exfalso
        apply h.1
        rw [← he]
        exact List.mem_map.mpr ⟨(k, y), hy', rfl⟩
    · rcases List.mem_cons.mp hy with he2 | hy'
      · exfalso
        apply h.1
        rw [← he2]
        exact List.mem_map.mpr ⟨(k, x), hx', rfl⟩
      · exact ih h.2 hx' hy'

theorem get_subject_count_append (a : Assignment) (p : Slot × Activity) (s : String) :
    get_subject_count (a ++ [p]) s =
      get_subject_count a s + (if p.2.1 = s then 1 else 0) := by
  unfold get_subject_count
  rw [List.countP_append]
  congr 1
  by_cases h : p.2.1 = s <;> simp [List.countP, List.countP.go, h]

theorem reachable_invariant (csp : TimetableCSP)
    (hwf : (csp.subject_periods.map Prod.fst).Nodup) :
    ∀ a, Reachable csp a →
      ((a.map Prod.fst).Nodup ∧ (∀ p ∈ a, p.1 ∈ all_slots csp)) ∧
      (∀ p ∈ a, p.2.2.1 ∈ csp.teachers ∧ p.2.1 ∈ csp.teacher_subjects p.2.2.1) ∧
      (∀ q ∈ csp.subject_periods, get_subject_count a q.1 ≤ q.2) := by
  intro a hreach
  induction hreach with
  | empty => simp [get_subject_count]
  | step a slot rest v hr hu hv ih =>
    have hmem : slot ∈ get_unassigned_variables csp a := by
      rw [hu]; exact List.mem_cons_self slot rest
    have hk : has_key a slot = false := has_key_of_unassigned hmem
    rw [dict_set_unbound hk]
    obtain ⟨⟨hnd, hslots⟩, hcap, hcount⟩ := ih
    obtain ⟨hslot_all, hslot_not⟩ := (mem_unassigned_iff csp a slot).mp hmem
    have hv' := (mem_get_domain_values_iff csp a slot.1 slot.2 v.1 v.2.1 v.2.2).mp (by
      have : v = (v.1, v.2.1, v.2.2) := rfl
      rw [← this]; exact hv)
    refine ⟨⟨?_, ?_⟩, ?_, ?_⟩
    · rw [List.map_append]
      refine List.Nodup.append hnd (List.nodup_singleton _) ?_
      intro x hx hx2
      simp only [List.map_cons, List.map_nil, List.mem_singleton] at hx2
      subst hx2
      exact hslot_not hx
    · intro p hp
      rcases List.mem_append.mp hp with hp' | hp'
      · exact hslots p hp'
      · simp only [List.mem_singleton] at hp'
        subst hp'
        exact hslot_all
    · intro p hp
      rcases List.mem_append.mp hp with hp' | hp'
      · exact hcap p hp'
      · simp only [List.mem_singleton] at hp'
        subst hp'
        exact ⟨hv'.2.1, hv'.2.2.1⟩
    · intro q hq
      rw [get_subject_count_append]
      by_cases he : (slot, v).2.1 = q.1
      · rw [if_pos he]
        obtain ⟨req, hreq, hlt⟩ := hv'.1
        have hx : (q.1, req) ∈ csp.subject_periods := by
          rw [← he]; exact hreq
        have hy : (q.1, q.2) ∈ csp.subject_periods := by
          have hqe : q = (q.1, q.2) := rfl
          rw [← hqe]; exact hq
        have hreqq : req = q.2 := nodup_keys_unique hwf hx hy
        have hlt2 : get_subject_count a q.1 < req := by
          rw [← he]; exact hlt
        omega
      · rw [if_neg he]
        simpa using hcount q hq

theorem is_complete_iff (csp : TimetableCSP) (a : Assignment) :
    is_complete csp a = true ↔
      ∀ q ∈ csp.subject_periods, q.2 ≤ get_subject_count a q.1 := by
  unfold is_complete
  rw [List.all_eq_true]
  constructor
  · intro h q hq
    have := h q hq
    simp only [Bool.not_eq_true', decide_eq_false_iff_not, not_lt] at this
    exact this
  · intro h q hq
    simp only [Bool.not_eq_true', decide_eq_false_iff_not, not_lt]
    exact h q hq

theorem counts_sum_le (sp : List (String × Nat)) :
    ∀ a : Assignment, (sp.map Prod.fst).Nodup →
      (sp.map (fun q => get_subject_count a q.1)).sum ≤ a.length := by
  induction sp with
  | nil => intro a _; simp
  | cons q0 rest ih =>
    intro a hnd
    rw [List.map_cons, List.nodup_cons] at hnd
    obtain ⟨hnot, hnd'⟩ := hnd
    rw [List.map_cons, List.sum_cons]
    have hrest : ∀ q ∈ rest, get_subject_count a q.1 =
        get_subject_count (a.filter (fun p => !(decide (p.2.1 = q0.1)))) q.1 := by
      intro q hq
      unfold get_subject_count
      rw [List.countP_filter]
      apply List.countP_congr
      intro p _
      constructor
      · intro hp
        simp only [decide_eq_true_eq] at hp
        simp only [hp, decide_True, Bool.true_and, Bool.not_eq_true',
          decide_eq_false_iff_not]
        intro hcontra
        exact hnot (List.mem_map.mpr ⟨q, hq, hcontra⟩)
      · intro hp
        simp only [Bool.and_eq_true] at hp
        exact hp.1
    have hmap : rest.map (fun q => get_subject_count a q.1) =
        rest.map (fun q =>
          get_subject_count (a.filter (fun p => !(decide (p.2.1 = q0.1)))) q.1) :=
      List.map_congr_left hrest
    rw [hmap]
    have hih := ih (a.filter (fun p => !(decide (p.2.1 = q0.1)))) hnd'
    have hlen : get_subject_count a q0.1 +
        (a.filter (fun p => !(decide (p.2.1 = q0.1)))).length = a.length := by
      unfold get_subject_count
      rw [← List.countP_eq_length_filter]
      have := List.length_eq_countP_add_countP (l := a) (fun p => decide (p.2.1 = q0.1))
      rw [this]
      congr 1
      apply List.countP_congr
      intro p _
      simp
    omega

theorem is_valid_assignment_iff (csp : TimetableCSP) (a : Assignment)
    (day time_slot subject teacher classroom : String) :
    is_valid_assignment csp a day time_slot subject teacher classroom = false ↔
      subject ∉ csp.teacher_subjects teacher ∨
      (∃ p ∈ a, p.1.1 = day ∧ p.1.2 = time_slot ∧ p.2.2.1 = teacher) ∨
      (∃ p ∈ a, p.1.1 = day ∧ p.1.2 = time_slot ∧ p.2.2.2 = classroom) := by
  unfold is_valid_assignment
  split_ifs with h1 h2 h3
  · simp only [Bool.not_eq_true', decide_eq_false_iff_not] at h1
    simp only [eq_self_iff_true, true_iff]
    exact Or.inl h1
  · simp only [List.any_eq_true, Bool.and_eq_true, decide_eq_true_eq] at h2
    simp only [eq_self_iff_true, true_iff]
    refine Or.inr (Or.inl ?_)
    obtain ⟨p, hp, ⟨hd, ht⟩, hteach⟩ := h2
    exact ⟨p, hp, hd, ht, hteach⟩
  · simp only [List.any_eq_true, Bool.and_eq_true, decide_eq_true_eq] at h3
    simp only [eq_self_iff_true, true_iff]
    refine Or.inr (Or.inr ?_)
    obtain ⟨p, hp, ⟨hd, ht⟩, hroom⟩ := h3
    exact ⟨p, hp, hd, ht, hroom⟩
  · simp only [Bool.not_eq_true', decide_eq_false_iff_not, not_not] at h1
    simp only [List.any_eq_true, Bool.and_eq_true, decide_eq_true_eq] at h2 h3
    constructor
    · intro h; exact absurd h (by simp)
    · rintro (hm | ⟨p, hp, hd, ht, hteach⟩ | ⟨p, hp, hd, ht, hroom⟩)
      · exact absurd h1 hm
      · exact absurd ⟨p, hp, ⟨hd, ht⟩, hteach⟩ h2
      · exact absurd ⟨p, hp, ⟨hd, ht⟩, hroom⟩ h3

theorem find_replace (a : Assignment) (k : Slot) (v : Activity) :
    (a.map (fun p => if p.1 = k then (k, v) else p)).find? (fun p => decide (p.1 = k)) =
      if has_key a k then some (k, v) else none := by
  induction a with
  | nil => simp [has_key]
  | cons p rest ih =>
    by_cases hp : p.1 = k
    · simp [has_key, List.find?, hp]
    · simp only [List.map_cons, if_neg hp]
      rw [List.find?_cons_of_neg _ (by simp [hp])]
      rw [ih]
      have he : has_key (p :: rest) k = has_key rest k := by
        simp [has_key, List.any_cons, hp]
      rw [he]

theorem dict_get_dict_set (a : Assignment) (k : Slot) (v : Activity) :
    dict_get (dict_set a k v) k = some v := by
  unfold dict_set
  by_cases h : has_key a k
  · rw [if_pos h]
    unfold dict_get
    rw [find_replace, if_pos h]
    rfl
  · rw [if_neg h]
    unfold dict_get
    rw [List.find?_append]
    have h1 : a.find? (fun p => decide (p.1 = k)) = none := by
      rw [List.find?_eq_none]
      intro p hp
      simp only [decide_eq_true_eq]
      exact (key_unbound_iff a k).mp (Bool.eq_false_iff.mpr h) p hp
    rw [h1]
    simp [List.find?]

/-- C1: whenever `solve` returns Success, every subject's bound-slot count in
the returned assignment equals that subject's required quota exactly —
neither less nor greater. -/
theorem c1_exact_quota_on_success {G : Type} (csp : TimetableCSP)
    (hwf : (csp.subject_periods.map Prod.fst).Nodup)
    (next_shuffle : G → List Activity → List Activity × G)
    (hsub : ∀ (g : G) l, ∀ v ∈ (next_shuffle g l).1, v ∈ l)
    (g : G) (a' : Assignment) (g' : G)
    (h : solve csp next_shuffle g = some (true, a', g')) :
    ∀ q ∈ csp.subject_periods, get_subject_count a' q.1 = q.2 := by
  intro q hq
  have h' : backtrack csp next_shuffle ((all_slots csp).length + 1) [] g =
      some (true, a', g') := h
  have hcomp := backtrack_complete csp next_shuffle _ [] g a' g' h'
  have hreach :=
    backtrack_reachable csp next_shuffle hsub _ [] g a' g' Reachable.empty h'
  have hle := (reachable_invariant csp hwf a' hreach).2.2 q hq
  have hge := (is_complete_iff csp a').mp hcomp q hq
  exact Nat.le_antisymm hle hge

/-- C1 witness: on a one-slot instance the solver succeeds and the returned
assignment meets the single quota exactly. -/
theorem c1_witness :
    (tinyCSP.subject_periods.map Prod.fst).Nodup ∧
    solve tinyCSP idShuffle () = some (true, [(("D", "P"), ("S", "T", "R"))], ()) ∧
    ∀ q ∈ tinyCSP.subject_periods,
      get_subject_count [(("D", "P"), ("S", "T", "R"))] q.1 = q.2 :=
  ⟨by decide, by rfl,
    c1_exact_quota_on_success tinyCSP (by decide) idShuffle
      (fun _ _ _ hv => hv) () [(("D", "P"), ("S", "T", "R"))] () (by rfl)⟩

/-- C2: every assignment state reachable during a solve satisfies the running
invariants — each binding's teacher is capable of its subject; at most one
binding exists per slot (so no second binding at a slot can share its teacher
or classroom); no subject's count ever exceeds its quota; and the domain
enumeration never offers a candidate whose subject has already reached quota
(so the quota bound holds by construction, not by post-hoc rejection). -/
theorem c2_search_invariants (csp : TimetableCSP)
    (hwf : (csp.subject_periods.map Prod.fst).Nodup)
    (a : Assignment) (hreach : Reachable csp a) :
    (∀ p ∈ a, p.2.1 ∈ csp.teacher_subjects p.2.2.1) ∧
    (∀ p ∈ a, ∀ p' ∈ a, p.1 = p'.1 → p = p') ∧
    (∀ q ∈ csp.subject_periods, get_subject_count a q.1 ≤ q.2) ∧
    (∀ day time_slot, ∀ v ∈ get_domain_values csp a day time_slot,
      ∃ req, (v.1, req) ∈ csp.subject_periods ∧ get_subject_count a v.1 < req) := by
  obtain ⟨⟨hnd, _⟩, hcap, hcount⟩ := reachable_invariant csp hwf a hreach
  refine ⟨fun p hp => (hcap p hp).2, ?_, hcount, ?_⟩
  · intro p hp p' hp' hk
    have hx : ((p.1, p.2) : Slot × Activity) ∈ a := hp
    have hy : ((p.1, p'.2) : Slot × Activity) ∈ a := by
      rw [hk]; exact hp'
    have h2 : p.2 = p'.2 := nodup_keys_unique hnd hx hy
    exact Prod.ext hk h2
  · intro day time_slot v hv
    exact ((mem_get_domain_values_iff csp a day time_slot v.1 v.2.1 v.2.2).mp hv).1

/-- C2 witness: a concretely reached one-binding state on the one-slot
instance satisfies all the invariants. -/
theorem c2_witness :
    (tinyCSP.subject_periods.map Prod.fst).Nodup ∧
    Reachable tinyCSP [(("D", "P"), ("S", "T", "R"))] ∧
    (∀ p ∈ ([(("D", "P"), ("S", "T", "R"))] : Assignment),
      p.2.1 ∈ tinyCSP.teacher_subjects p.2.2.1) ∧
    ∀ q ∈ tinyCSP.subject_periods,
      get_subject_count [(("D", "P"), ("S", "T", "R"))] q.1 ≤ q.2 := by
  have hreach : Reachable tinyCSP [(("D", "P"), ("S", "T", "R"))] :=
    Reachable.step [] ("D", "P") [] ("S", "T", "R") Reachable.empty (by rfl) (by decide)
  have h := c2_search_invariants tinyCSP (by decide) _ hreach
  exact ⟨by decide, hreach, h.1, h.2.2.1⟩

/-- C3: the search always terminates with a result — `solve` returns
Success or Exhausted for every instance and every shuffle — and each
recursive step strictly shrinks the unassigned-slot list. -/
theorem c3_termination {G : Type} (csp : TimetableCSP)
    (next_shuffle : G → List Activity → List Activity × G) (g : G) :
    (∃ b a' g', solve csp next_shuffle g = some (b, a', g')) ∧
    (∀ (a : Assignment) slot rest v, get_unassigned_variables csp a = slot :: rest →
      (get_unassigned_variables csp (dict_set a slot v)).length <
        (get_unassigned_variables csp a).length) := by
  constructor
  · have hlen : (get_unassigned_variables csp []).length < (all_slots csp).length + 1 := by
      have h := List.length_filter_le
        (fun slot => !(decide (slot ∈ ([] : Assignment).map Prod.fst)))
        (all_slots csp)
      unfold get_unassigned_variables
      omega
    obtain ⟨⟨b, a', g'⟩, hr⟩ :=
      backtrack_total csp next_shuffle ((all_slots csp).length + 1) [] g hlen
    exact ⟨b, a', g', hr⟩
  · intro a slot rest v hu
    exact unassigned_length_lt (by rw [hu]; exact List.mem_cons_self slot rest) v

/-- C3 witness: the one-slot instance solves to a result, and binding the
head unassigned slot strictly shrinks the unassigned list. -/
theorem c3_witness :
    (∃ b a' g', solve tinyCSP idShuffle () = some (b, a', g')) ∧
    get_unassigned_variables tinyCSP [] = [("D", "P")] ∧
    (get_unassigned_variables tinyCSP (dict_set [] ("D", "P") ("S", "T", "R"))).length <
      (get_unassigned_variables tinyCSP []).length :=
  ⟨(c3_termination tinyCSP idShuffle ()).1, by rfl,
    (c3_termination tinyCSP idShuffle ()).2 [] ("D", "P") [] ("S", "T", "R") (by rfl)⟩

/-- C4 counterexample: `is_complete` returns true on an assignment where
Math occupies 4 slots although its quota is 3 — the code checks only
`count < required`, i.e. at-least, not exact equality as claimed. -/
theorem c4_counterexample :
    is_complete defaultCSP overfullAssignment = true ∧
    ("Math", 3) ∈ defaultCSP.subject_periods ∧
    get_subject_count overfullAssignment "Math" = 4 ∧
    decide (get_subject_count overfullAssignment "Math" = 3) = false :=
  ⟨by rfl, by decide, by rfl, by rfl⟩

/-- C4 amended: `is_complete` is true iff every subject's count is at least
(not exactly) its quota, with no requirement that every slot be filled; on
assignments actually reachable by the search — whose counts never exceed
quota — the at-least reading coincides with exact equality. -/
theorem c4_amended_is_complete (csp : TimetableCSP) (a : Assignment) :
    (is_complete csp a = true ↔
      ∀ q ∈ csp.subject_periods, q.2 ≤ get_subject_count a q.1) ∧
    ((csp.subject_periods.map Prod.fst).Nodup → Reachable csp a →
      (is_complete csp a = true ↔
        ∀ q ∈ csp.subject_periods, get_subject_count a q.1 = q.2)) := by
  refine ⟨is_complete_iff csp a, fun hwf hreach => ?_⟩
  rw [is_complete_iff]
  have hle := (reachable_invariant csp hwf a hreach).2.2
  constructor
  · intro h q hq
    exact Nat.le_antisymm (hle q hq) (h q hq)
  · intro h q hq
    rw [h q hq]

/-- C4 amended witness: evaluated on a concretely reached complete state of
the one-slot instance. -/
theorem c4_amended_witness :
    (tinyCSP.subject_periods.map Prod.fst).Nodup ∧
    Reachable tinyCSP [(("D", "P"), ("S", "T", "R"))] ∧
    (is_complete tinyCSP [(("D", "P"), ("S", "T", "R"))] = true ↔
      ∀ q ∈ tinyCSP.subject_periods,
        get_subject_count [(("D", "P"), ("S", "T", "R"))] q.1 = q.2) := by
  have hreach : Reachable tinyCSP [(("D", "P"), ("S", "T", "R"))] :=
    Reachable.step [] ("D", "P") [] ("S", "T", "R") Reachable.empty (by rfl) (by decide)
  exact ⟨by decide, hreach,
    (c4_amended_is_complete tinyCSP [(("D", "P"), ("S", "T", "R"))]).2 (by decide) hreach⟩

/-- C5: for activities drawn from the catalogs (teacher among `teachers`,
classroom among `classrooms`), `get_domain_values` enumerates exactly the
triples whose subject still needs more periods, whose teacher is capable of
the subject, and which pass `is_valid_assignment` — every such triple
appears and no other. -/
theorem c5_domain_values_exact (csp : TimetableCSP) (a : Assignment)
    (day time_slot s t c : String)
    (ht : t ∈ csp.teachers) (hc : c ∈ csp.classrooms) :
    (s, t, c) ∈ get_domain_values csp a day time_slot ↔
      (∃ req, (s, req) ∈ csp.subject_periods ∧ get_subject_count a s < req) ∧
      s ∈ csp.teacher_subjects t ∧
      is_valid_assignment csp a day time_slot s t c = true := by
  rw [mem_get_domain_values_iff]
  constructor
  · rintro ⟨h1, _, h3, _, h5⟩
    exact ⟨h1, h3, h5⟩
  · rintro ⟨h1, h3, h5⟩
    exact ⟨h1, ht, h3, hc, h5⟩

/-- C5 witness: the characterization evaluated at the reference catalog with
the empty assignment and the triple (Math, Teacher_A, Room_101). -/
theorem c5_witness :
    ("Teacher_A" ∈ defaultCSP.teachers) ∧ ("Room_101" ∈ defaultCSP.classrooms) ∧
    (("Math", "Teacher_A", "Room_101") ∈
        get_domain_values defaultCSP [] "Monday" "9:00-10:00" ↔
      (∃ req, ("Math", req) ∈ defaultCSP.subject_periods ∧
        get_subject_count [] "Math" < req) ∧
      "Math" ∈ defaultCSP.teacher_subjects "Teacher_A" ∧
      is_valid_assignment defaultCSP [] "Monday" "9:00-10:00"
        "Math" "Teacher_A" "Room_101" = true) :=
  ⟨by decide, by decide,
    c5_domain_values_exact defaultCSP [] "Monday" "9:00-10:00"
      "Math" "Teacher_A" "Room_101" (by decide) (by decide)⟩

/-- C6: `is_valid_assignment` returns false exactly when the teacher is not
capable of the subject, or an existing binding at the same (day, time) has
the same teacher, or an existing binding at the same (day, time) has the
same classroom; in every other case it returns true — a pure, total boolean
decision with no failure outcome. -/
theorem c6_is_valid_exact (csp : TimetableCSP) (a : Assignment)
    (day time_slot subject teacher classroom : String) :
    is_valid_assignment csp a day time_slot subject teacher classroom = false ↔
      subject ∉ csp.teacher_subjects teacher ∨
      (∃ p ∈ a, p.1.1 = day ∧ p.1.2 = time_slot ∧ p.2.2.1 = teacher) ∨
      (∃ p ∈ a, p.1.1 = day ∧ p.1.2 = time_slot ∧ p.2.2.2 = classroom) :=
  is_valid_assignment_iff csp a day time_slot subject teacher classroom

/-- C7: an infeasible instance — the quota total exceeding the number of
slots (e.g. the reference catalog with History's quota raised to 30 against
25 slots), or a positive quota for a subject no teacher is capable of —
makes `solve` return Exhausted under every candidate ordering. -/
theorem c7_infeasible_exhausted {G : Type} (csp : TimetableCSP)
    (hwf : (csp.subject_periods.map Prod.fst).Nodup)
    (next_shuffle : G → List Activity → List Activity × G)
    (hsub : ∀ (g : G) l, ∀ v ∈ (next_shuffle g l).1, v ∈ l) (g : G)
    (hinf : (all_slots csp).length < (csp.subject_periods.map Prod.snd).sum ∨
      ∃ q ∈ csp.subject_periods, 1 ≤ q.2 ∧
        ∀ t ∈ csp.teachers, q.1 ∉ csp.teacher_subjects t) :
    ∃ a' g', solve csp next_shuffle g = some (false, a', g') := by
  have hlen : (get_unassigned_variables csp []).length < (all_slots csp).length + 1 := by
    have h := List.length_filter_le
      (fun slot => !(decide (slot ∈ ([] : Assignment).map Prod.fst)))
      (all_slots csp)
    unfold get_unassigned_variables
    omega
  obtain ⟨⟨b, a', g'⟩, hr⟩ :=
    backtrack_total csp next_shuffle ((all_slots csp).length + 1) [] g hlen
  cases b with
  | false => exact ⟨a', g', hr⟩
  | true =>
    exfalso
    have hcomp := backtrack_complete csp next_shuffle _ [] g a' g' hr
    have hreach :=
      backtrack_reachable csp next_shuffle hsub _ [] g a' g' Reachable.empty hr
    obtain ⟨⟨hnd, hslots⟩, hcap, _⟩ := reachable_invariant csp hwf a' hreach
    have hge := (is_complete_iff csp a').mp hcomp
    rcases hinf with hsum | ⟨q, hq, hq1, hnone⟩
    · have h1 : (csp.subject_periods.map Prod.snd).sum ≤
          (csp.subject_periods.map (fun q => get_subject_count a' q.1)).sum :=
        List.sum_le_sum (fun q hq => hge q hq)
      have h2 := counts_sum_le csp.subject_periods a' hwf
      have h3 : a'.length ≤ (all_slots csp).length := by
        have hsubset : a'.map Prod.fst ⊆ all_slots csp := by
          intro x hx
          obtain ⟨p, hp, rfl⟩ := List.mem_map.mp hx
          exact hslots p hp
        have h4 := (List.subperm_of_subset hnd hsubset).length_le
        simpa using h4
      omega
    · have hzero : get_subject_count a' q.1 = 0 := by
        unfold get_subject_count
        rw [List.countP_eq_zero]
        intro p hp
        simp only [decide_eq_true_eq]
        intro he
        exact hnone p.2.2.1 (hcap p hp).1 (he ▸ (hcap p hp).2)
      have h5 := hge q hq
      rw [hzero] at h5
      omega

/-- C7 witness: the reference catalog with History's quota raised to 30
(39 required periods against 25 slots) is exhausted under the identity
ordering. -/
theorem c7_witness :
    (historyThirtyCSP.subject_periods.map Prod.fst).Nodup ∧
    (all_slots historyThirtyCSP).length <
      (historyThirtyCSP.subject_periods.map Prod.snd).sum ∧
    ∃ a' g', solve historyThirtyCSP idShuffle () = some (false, a', g') :=
  ⟨by decide, by decide,
    c7_infeasible_exhausted historyThirtyCSP (by decide) idShuffle
      (fun _ _ _ hv => hv) () (Or.inl (by decide))⟩

/-- C8: a recursive search call that returns Exhausted hands back exactly the
assignment it was entered with — every trial binding made at that level has
been undone by the `del` before returning. -/
theorem c8_exhausted_frame {G : Type} (csp : TimetableCSP)
    (next_shuffle : G → List Activity → List Activity × G) (fuel : Nat)
    (a : Assignment) (g : G) (a' : Assignment) (g' : G)
    (h : backtrack csp next_shuffle fuel a g = some (false, a', g')) : a' = a :=
  backtrack_frame csp next_shuffle fuel a g false a' g' h rfl

/-- C8 witness: a failing search on the no-capable-teacher instance, entered
with a nonempty assignment, returns that assignment unchanged. -/
theorem c8_witness :
    backtrack noTeacherCSP idShuffle 2 [(("X", "Y"), ("Z", "T", "R"))] () =
      some (false, [(("X", "Y"), ("Z", "T", "R"))], ()) ∧
    ([(("X", "Y"), ("Z", "T", "R"))] : Assignment) = [(("X", "Y"), ("Z", "T", "R"))] :=
  ⟨by rfl,
    c8_exhausted_frame noTeacherCSP idShuffle 2 [(("X", "Y"), ("Z", "T", "R"))] ()
      [(("X", "Y"), ("Z", "T", "R"))] () (by rfl)⟩

/-- C9 counterexample: binding an already-bound slot does not fail — the dict
assignment on line 111 silently replaces the existing binding with the new
one, contradicting the claimed fatal contract error for double-bind. -/
theorem c9_counterexample :
    dict_get [(("Monday", "9:00-10:00"), ("Math", "Teacher_A", "Room_101"))]
        ("Monday", "9:00-10:00") = some ("Math", "Teacher_A", "Room_101") ∧
    dict_set [(("Monday", "9:00-10:00"), ("Math", "Teacher_A", "Room_101"))]
        ("Monday", "9:00-10:00") ("Physics", "Teacher_B", "Room_102") =
      [(("Monday", "9:00-10:00"), ("Physics", "Teacher_B", "Room_102"))] ∧
    decide ((("Math", "Teacher_A", "Room_101") : Activity) =
      ("Physics", "Teacher_B", "Room_102")) = false :=
  ⟨by rfl, by rfl, by rfl⟩

/-- C9 amended: double-unbind does fail fatally — `del` on an unbound slot
raises KeyError (modelled as `none`), never silently ignored — but
double-bind does not fail: dict assignment on a bound slot silently replaces
the existing binding, keeping the dict's size; the search avoids double-bind
only because it binds none but unassigned slots. -/
theorem c9_amended_bind_unbind (a : Assignment) (k : Slot) (v : Activity) :
    (has_key a k = false → dict_del a k = none) ∧
    dict_get (dict_set a k v) k = some v ∧
    (has_key a k = true → (dict_set a k v).length = a.length) := by
  refine ⟨?_, dict_get_dict_set a k v, ?_⟩
  · intro h
    simp [dict_del, h]
  · intro h
    simp [dict_set, h]

/-- C9 amended witness: `del` fails on the empty dict; setting a bound slot
keeps the size and stores the new value. -/
theorem c9_amended_witness :
    (has_key ([] : Assignment) ("Monday", "9:00-10:00") = false ∧
      dict_del ([] : Assignment) ("Monday", "9:00-10:00") = none) ∧
    (has_key [(("Monday", "9:00-10:00"), ("Math", "Teacher_A", "Room_101"))]
        ("Monday", "9:00-10:00") = true ∧
      dict_get (dict_set [(("Monday", "9:00-10:00"), ("Math", "Teacher_A", "Room_101"))]
          ("Monday", "9:00-10:00") ("Physics", "Teacher_B", "Room_102"))
          ("Monday", "9:00-10:00") = some ("Physics", "Teacher_B", "Room_102") ∧
      (dict_set [(("Monday", "9:00-10:00"), ("Math", "Teacher_A", "Room_101"))]
          ("Monday", "9:00-10:00") ("Physics", "Teacher_B", "Room_102")).length =
        ([(("Monday", "9:00-10:00"), ("Math", "Teacher_A", "Room_101"))] : Assignment).length) :=
  ⟨⟨by rfl,
      (c9_amended_bind_unbind [] ("Monday", "9:00-10:00")
        ("Physics", "Teacher_B", "Room_102")).1 (by rfl)⟩,
    ⟨by rfl,
      (c9_amended_bind_unbind [(("Monday", "9:00-10:00"), ("Math", "Teacher_A", "Room_101"))]
        ("Monday", "9:00-10:00") ("Physics", "Teacher_B", "Room_102")).2.1,
      (c9_amended_bind_unbind [(("Monday", "9:00-10:00"), ("Math", "Teacher_A", "Room_101"))]
        ("Monday", "9:00-10:00") ("Physics", "Teacher_B", "Room_102")).2.2 (by rfl)⟩⟩

/-- C10: the legality check alone does not require the slot to be unbound —
with Monday 9:00 already bound to (Math, Teacher_A, Room_101), the candidate
(Chemistry, Teacher_B, Room_102), whose teacher is capable and whose teacher
and classroom differ from the existing binding's, is still judged legal at
that slot; the slot is nevertheless excluded from
`get_unassigned_variables`, which is what keeps the search to one binding
per slot. -/
theorem c10_legal_despite_bound_slot :
    has_key [(("Monday", "9:00-10:00"), ("Math", "Teacher_A", "Room_101"))]
        ("Monday", "9:00-10:00") = true ∧
    is_valid_assignment defaultCSP
        [(("Monday", "9:00-10:00"), ("Math", "Teacher_A", "Room_101"))]
        "Monday" "9:00-10:00" "Chemistry" "Teacher_B" "Room_102" = true ∧
    decide (("Monday", "9:00-10:00") ∈ get_unassigned_variables defaultCSP
        [(("Monday", "9:00-10:00"), ("Math", "Teacher_A", "Room_101"))]) = false :=
  ⟨by rfl, by rfl, by rfl⟩

/-- C6 witness: the characterization evaluated at the reference catalog with
one existing binding and a candidate that reuses the same teacher at the
same slot. -/
theorem c6_witness :
    is_valid_assignment defaultCSP
        [(("Monday", "9:00-10:00"), ("Math", "Teacher_A", "Room_101"))]
        "Monday" "9:00-10:00" "Physics" "Teacher_A" "Room_102" = false ↔
      "Physics" ∉ defaultCSP.teacher_subjects "Teacher_A" ∨
      (∃ p ∈ ([(("Monday", "9:00-10:00"), ("Math", "Teacher_A", "Room_101"))] : Assignment),
        p.1.1 = "Monday" ∧ p.1.2 = "9:00-10:00" ∧ p.2.2.1 = "Teacher_A") ∨
      (∃ p ∈ ([(("Monday", "9:00-10:00"), ("Math", "Teacher_A", "Room_101"))] : Assignment),
        p.1.1 = "Monday" ∧ p.1.2 = "9:00-10:00" ∧ p.2.2.2 = "Room_102") :=
  c6_is_valid_exact defaultCSP
    [(("Monday", "9:00-10:00"), ("Math", "Teacher_A", "Room_101"))]
    "Monday" "9:00-10:00" "Physics" "Teacher_A" "Room_102"
